import Mathlib

/-!
Verification of the ramparts MCP proxy (rust sources under proxy/src) against
its natural-language specification.  The development shallowly embeds:

* `proxy/src/logging.rs`  — `sanitize_json_for_log`, `truncate_for_log`;
* `proxy/src/validation_service.rs` — `ValidationService::validate_request`,
  `validate_response`, `validate_method_specific`, the local rule engine and
  the error-response constructors;
* `proxy/src/bin/ramparts-mcp-proxy-stdio.rs` — the framed JSON-RPC codec
  (`read_jsonrpc_message` / `write_jsonrpc_message`) and one iteration of each
  of the two proxy worker loops.

Modelling conventions:

* Rust `&str`/`String` is Lean `String`; where byte positions matter the model
  works on `String.data : List Char` with `Char.utf8Size` as the byte width of
  a character, so `byteLen` is exactly Rust's `str::len` and a byte index is a
  codepoint boundary iff some char-list prefix sums to it.  A Rust byte slice
  `&s[..n]` that would panic (index not on a boundary) is modelled as `none`.
* Byte streams are `List Char` (the streams handled by the proxy are UTF-8;
  reads that would split a UTF-8 character are represented as read errors).
* `serde_json::Value` is the mutual inductive `Json`/`JArr`/`JObj`; object
  fields keep their stored order.  JSON numbers are modelled as `ℚ`
  (the source stores f64; every number occurring in the verified code is an
  integer or an exact multiple of 1/10).
* Fallible Rust code returns `Option`/`Except`; panics are `none`.
* The external Guardrails client (`javelin_client`, not under proxy/src) is a
  parameter `evaluator : Json → Except String Bool`: `.ok b` models
  `Ok(is_valid)`, `.error e` models any failed call (unreachable evaluator,
  timeout, non-2xx), matching the `Result` surface the validation service
  consumes.
* Rust `to_lowercase()` is modelled by its action on ASCII (the strings the
  rule engine compares are ASCII); `to_ascii_lowercase()` is modelled exactly.
-/

set_option maxRecDepth 1000000

namespace Ramparts

/-- Whitespace test used by the model for Rust's `trim`/`trim_end`; restricted
to the ASCII whitespace characters that occur in JSON-RPC framing. -/
def isWsC (c : Char) : Bool :=
  c = ' ' || c = '\t' || c = '\n' || c = '\r'

/-- Model of Rust `str::trim_end` on a character list. -/
def trimEnd (l : List Char) : List Char :=
  (l.reverse.dropWhile isWsC).reverse

/-- Model of Rust `str::trim_start` on a character list. -/
def trimL (l : List Char) : List Char :=
  l.dropWhile isWsC

/-- Model of Rust `str::trim` (trim both ends; computed end-first, which agrees
with Rust's both-ends trim). -/
def trim (l : List Char) : List Char :=
  trimL (trimEnd l)

/-- ASCII lowercase of one character, the action of Rust
`char::to_ascii_lowercase`. -/
def lowerC (c : Char) : Char :=
  if 'A' ≤ c ∧ c ≤ 'Z' then Char.ofNat (c.toNat + 32) else c

/-- Model of Rust `str::to_ascii_lowercase` (and of `to_lowercase` on the ASCII
strings the rule engine handles). -/
def asciiLower (s : String) : String :=
  ⟨s.data.map lowerC⟩

/-- Does `needle` occur as a contiguous sublist of the list? Model of Rust
`str::contains` with a literal pattern. -/
def infixOf (needle : List Char) : List Char → Bool
  | [] => needle.isEmpty
  | c :: t => needle.isPrefixOf (c :: t) || infixOf needle t

/-- Rust `str::contains(pat)`. -/
def strContains (hay pat : String) : Bool :=
  infixOf pat.data hay.data

/-- UTF-8 byte length of a character list: Rust `str::len` of the string with
these characters. -/
def byteLen : List Char → Nat
  | [] => 0
  | c :: t => c.utf8Size + byteLen t

/-- Rust `str::len` (UTF-8 byte count). -/
def utf8Len (s : String) : Nat := byteLen s.data

/-- The characters covering exactly the first `n` bytes, or `none` when byte
index `n` is not a character boundary (where Rust's `&s[..n]` panics). -/
def takeBytes : Nat → List Char → Option (List Char)
  | 0, _ => some []
  | _ + 1, [] => none
  | n + 1, c :: t =>
    if c.utf8Size ≤ n + 1 then (takeBytes (n + 1 - c.utf8Size) t).map (c :: ·)
    else none

/-- Decimal digit character for `d ≤ 9`. -/
def digC (d : Nat) : Char := Char.ofNat (48 + d)

/-- Is the character a decimal digit? -/
def isDigC (c : Char) : Bool := 48 ≤ c.toNat && c.toNat ≤ 57

/-- Most-significant-first decimal digits of `m`, prepended to `acc`; `fuel`
only bounds the recursion (`m ≤ fuel` makes it exact). -/
def toDecAux : Nat → Nat → List Char → List Char
  | _, 0, acc => acc
  | 0, _ + 1, acc => acc
  | fuel + 1, m + 1, acc => toDecAux fuel ((m + 1) / 10) (digC ((m + 1) % 10) :: acc)

/-- Decimal rendering of a natural number, the model of Rust's `Display` for
`usize` as used by `format!`. -/
def toDecChars (n : Nat) : List Char :=
  if n = 0 then ['0'] else toDecAux n n []

/-- Decimal rendering of an integer (Rust `Display` for `i64`). -/
def intToDec (i : Int) : List Char :=
  if i < 0 then '-' :: toDecChars i.natAbs else toDecChars i.natAbs

/-- Value of a most-significant-first decimal digit list. -/
def valD (l : List Char) : Nat :=
  l.foldl (fun a c => a * 10 + (c.toNat - 48)) 0

/-- Model of Rust `str::parse::<usize>()` (64-bit): an optional leading `+`,
then one or more decimal digits, rejecting values `≥ 2^64`. -/
def parseUsize : List Char → Option Nat
  | [] => none
  | c :: rest =>
    let digits := if c = '+' then rest else c :: rest
    if !digits.isEmpty && digits.all isDigC then
      if valD digits < 2 ^ 64 then some (valD digits) else none
    else none

/-- Drop the literal prefix `pre`, or `none`: Rust `str::strip_prefix`. -/
def stripPre : List Char → List Char → Option (List Char)
  | [], l => some l
  | _ :: _, [] => none
  | p :: ps, c :: cs => if p = c then stripPre ps cs else none

/-- Split off the first line of a nonempty stream, including its terminating
newline (or the whole stream at EOF): the effect of one `read_line` call. -/
def splitLine : List Char → List Char × List Char
  | [] => ([], [])
  | c :: rest =>
    if c = '\n' then (['\n'], rest)
    else
      let p := splitLine rest
      (c :: p.1, p.2)

/-- Replace every occurrence of the nonempty pattern `pat` by `repl`,
left to right: Rust `str::replace`.  `fuel ≥` input length makes it exact. -/
def replaceAllAux (pat repl : List Char) : Nat → List Char → List Char
  | _, [] => []
  | 0, s => s
  | fuel + 1, c :: t =>
    if pat.isPrefixOf (c :: t) && !pat.isEmpty then
      repl ++ replaceAllAux pat repl fuel ((c :: t).drop pat.length)
    else c :: replaceAllAux pat repl fuel t

/-- Rust `str::replace(pat, repl)`. -/
def replaceAll (s pat repl : String) : String :=
  ⟨replaceAllAux pat.data repl.data s.data.length s.data⟩

/-! ### The JSON data model (serde_json::Value) -/

mutual
/-- `serde_json::Value`. -/
inductive Json where
  | null : Json
  | bool : Bool → Json
  | num : ℚ → Json
  | str : String → Json
  | arr : JArr → Json
  | obj : JObj → Json
deriving DecidableEq
/-- A JSON array (`Vec<Value>`). -/
inductive JArr where
  | nil : JArr
  | cons : Json → JArr → JArr
deriving DecidableEq
/-- A JSON object (`serde_json::Map<String, Value>`), fields in stored order. -/
inductive JObj where
  | nil : JObj
  | cons : String → Json → JObj → JObj
deriving DecidableEq
end

mutual
/-- Size measure on JSON values, used by the structural proofs. -/
def jsize : Json → Nat
  | .null => 1
  | .bool _ => 1
  | .num _ => 1
  | .str _ => 1
  | .arr xs => asize xs + 1
  | .obj fs => osize fs + 1
/-- Size measure on object field lists. -/
def osize : JObj → Nat
  | .nil => 0
  | .cons _ v rest => jsize v + osize rest + 1
/-- Size measure on array element lists. -/
def asize : JArr → Nat
  | .nil => 0
  | .cons v rest => jsize v + asize rest + 1
end

/-- Build an object from a field list. -/
def jobj : List (String × Json) → Json
  | l => .obj (l.foldr (fun kv acc => .cons kv.1 kv.2 acc) .nil)

/-- Build an array from an element list. -/
def jarr : List Json → Json
  | l => .arr (l.foldr .cons .nil)

/-- Look up a key in an object field list (`Map::get`; keys are unique in
serde maps, the model returns the first match). -/
def JObj.find : JObj → String → Option Json
  | .nil, _ => none
  | .cons k v rest, key => if k = key then some v else JObj.find rest key

/-- `Value::get(key)`: field of an object, `None` on other variants. -/
def Json.get : Json → String → Option Json
  | .obj fs, key => fs.find key
  | _, _ => none

/-- `Value::as_str()`. -/
def Json.asStr : Json → Option String
  | .str s => some s
  | _ => none

/-- `Value::as_num` style projection used by the proofs to inspect emitted
error codes. -/
def Json.asNum : Json → Option ℚ
  | .num q => some q
  | _ => none

/-! ### proxy/src/logging.rs -/

/-- Keys whose values should be redacted in logs (case-insensitive);
`SENSITIVE_KEYS` from logging.rs. -/
def SENSITIVE_KEYS : List String :=
  ["authorization", "proxy-authorization", "x-api-key", "x-javelin-apikey",
   "api_key", "apikey", "token", "access_token", "refresh_token", "password",
   "secret", "cookie", "set-cookie"]

/-- `is_sensitive_key` from logging.rs. -/
def is_sensitive_key (key : String) : Bool :=
  SENSITIVE_KEYS.any (fun s => s = asciiLower key)

/-- `truncate_for_log` from logging.rs.  `none` models the panic of the byte
slice `&input[..128]` when byte 128 is not a character boundary. -/
def truncate_for_log (input : String) : Option String :=
  if utf8Len input ≤ 128 then some input
  else
    (takeBytes 128 input.data).map
      (fun pre => ⟨pre ++ "… (".data ++ toDecChars (utf8Len input) ++ " chars)".data⟩)

mutual
/-- `sanitize_json_for_log` from logging.rs (`none` = a `truncate_for_log`
panic somewhere in the tree). -/
def sanitize_json_for_log : Json → Option Json
  | .obj fs => (sanitizeObj fs).map .obj
  | .arr xs => (sanitizeArr xs).map .arr
  | .str s => (truncate_for_log s).map .str
  | .null => some .null
  | .bool b => some (.bool b)
  | .num q => some (.num q)
/-- Field-list part of `sanitize_json_for_log` (the `for (k, v) in map` loop:
a sensitive key's value becomes `"***REDACTED***"` without recursing,
any other value is sanitized recursively and reinserted under the same key). -/
def sanitizeObj : JObj → Option JObj
  | .nil => some .nil
  | .cons k v rest =>
    (if is_sensitive_key k then some (Json.str "***REDACTED***")
     else sanitize_json_for_log v).bind
      (fun v2 => (sanitizeObj rest).map (fun r2 => .cons k v2 r2))
/-- Array part of `sanitize_json_for_log`. -/
def sanitizeArr : JArr → Option JArr
  | .nil => some .nil
  | .cons v rest =>
    (sanitize_json_for_log v).bind
      (fun v2 => (sanitizeArr rest).map (fun r2 => .cons v2 r2))
end

/-! ### JSON serialization (serde_json `Value::to_string`), needed by the
argument scan of the rule engine. -/

/-- Hexadecimal digit character. -/
def digC16 (d : Nat) : Char :=
  if d < 10 then Char.ofNat (48 + d) else Char.ofNat (87 + d)

/-- JSON string escaping of one character (serde escapes quote, backslash and
control characters). -/
def escC (c : Char) : List Char :=
  if c = Char.ofNat 34 then ['\\', Char.ofNat 34]
  else if c = '\\' then ['\\', '\\']
  else if c = '\n' then ['\\', 'n']
  else if c = '\r' then ['\\', 'r']
  else if c = '\t' then ['\\', 't']
  else if c = Char.ofNat 8 then ['\\', 'b']
  else if c = Char.ofNat 12 then ['\\', 'f']
  else if c.toNat < 32 then
    ['\\', 'u', '0', '0', digC16 (c.toNat / 16), digC16 (c.toNat % 16)]
  else [c]

/-- Serialized form of a JSON string literal, quotes included. -/
def strLit (s : String) : List Char :=
  Char.ofNat 34 :: ((s.data.map escC).flatten ++ [Char.ofNat 34])

/-- Serialized form of a JSON number.  Every number the verified code builds
or scans is an integer or an exact multiple of 1/10; other denominators
(unreachable here) are rendered as num/den. -/
def numLit (q : ℚ) : List Char :=
  if q.den = 1 then intToDec q.num
  else if q.den = 10 then
    intToDec (q.num / 10) ++ '.' :: toDecChars (q.num.natAbs % 10)
  else intToDec q.num ++ '/' :: toDecChars q.den

mutual
/-- Compact serialization, the model of `Value::to_string()`. -/
def Json.ser : Json → List Char
  | .null => "null".data
  | .bool true => "true".data
  | .bool false => "false".data
  | .num q => numLit q
  | .str s => strLit s
  | .arr xs => '[' :: (JArr.ser xs ++ [']'])
  | .obj fs => Char.ofNat 123 :: (JObj.ser fs ++ [Char.ofNat 125])
/-- Comma-separated serialization of array elements. -/
def JArr.ser : JArr → List Char
  | .nil => []
  | .cons v .nil => v.ser
  | .cons v (.cons w rest) => v.ser ++ ',' :: JArr.ser (.cons w rest)
/-- Comma-separated serialization of object fields. -/
def JObj.ser : JObj → List Char
  | .nil => []
  | .cons k v .nil => strLit k ++ ':' :: v.ser
  | .cons k v (.cons k2 w rest) =>
    strLit k ++ ':' :: v.ser ++ ',' :: JObj.ser (.cons k2 w rest)
end

/-- `Value::to_string()`. -/
def Json.toStr (v : Json) : String := ⟨v.ser⟩

/-! ### proxy/src/validation_service.rs -/

/-- The confidence literal `0.9`. -/
def q09 : ℚ := ⟨9, 10, by decide, by decide⟩

/-- The confidence literal `0.8`. -/
def q08 : ℚ := ⟨4, 5, by decide, by decide⟩

/-- The confidence literal `0.1`. -/
def q01 : ℚ := ⟨1, 10, by decide, by decide⟩

/-- A single-quote character, used inside reason strings. -/
def sq : String := ⟨[Char.ofNat 39]⟩

/-- The configuration fields of `ProxyConfig` consumed by the validation
service and the stdio worker loops (`config.javelin.api_key`,
`config.javelin.fail_open`). -/
structure Config where
  api_key : String
  fail_open : Bool

/-- `ValidationResult` from validation_service.rs. -/
structure ValidationResult where
  allowed : Bool
  reason : Option String
  confidence : Option ℚ
  request_id : String
  timestamp : String
deriving Repr, DecidableEq

/-- `is_dangerous_tool` from validation_service.rs. -/
def is_dangerous_tool (tool_name : String) : Bool :=
  let dangerous_tools : List String :=
    ["exec", "shell", "bash", "cmd", "powershell", "eval", "system",
     "subprocess", "popen", "spawn", "fork", "kill", "rm", "del",
     "format", "fdisk", "mkfs", "dd", "nc", "netcat", "telnet",
     "curl_exec", "wget_exec", "download_exec"]
  dangerous_tools.any (fun dangerous => strContains (asciiLower tool_name) dangerous)

/-- `contains_injection_patterns` from validation_service.rs. -/
def contains_injection_patterns (args : Json) : Bool :=
  let args_str := asciiLower args.toStr
  let injection_patterns : List String :=
    ["; ", "| ", "& ", "$(", "`", "&&", "||", "../", "..\\",
     "rm -", "del ", "format ", "fdisk", "mkfs", "dd if=",
     "curl ", "wget ", "nc ", "netcat", "telnet", "ssh ",
     "base64", "eval", "exec", "system", "popen"]
  injection_patterns.any (fun pattern => strContains args_str pattern)

/-- `contains_path_traversal` from validation_service.rs. -/
def contains_path_traversal (uri : String) : Bool :=
  let uri_lower := asciiLower uri
  strContains uri_lower "../" || strContains uri_lower "..\\" ||
  strContains uri_lower "%2e%2e" || strContains uri_lower "...." ||
  strContains uri_lower "/etc/" || strContains uri_lower "\\windows\\" ||
  strContains uri_lower "/proc/" || strContains uri_lower "/sys/"

/-- `contains_prompt_injection` from validation_service.rs. -/
def contains_prompt_injection (prompt_name : String) : Bool :=
  let prompt_lower := asciiLower prompt_name
  let injection_patterns : List String :=
    ["ignore", "forget", "disregard", "override", "bypass", "jailbreak",
     "system:", "assistant:", "user:", "human:", "ai:", "chatgpt:",
     "\\n\\n", "---", "###", "```", "exec", "eval", "script"]
  injection_patterns.any (fun pattern => strContains prompt_lower pattern)

/-- `validate_method_specific` from validation_service.rs: the local rule
engine.  Returns `some` only for a blocked request; `none` continues with the
general validation. -/
def validate_method_specific (request : Json) (method : String)
    (request_id timestamp : String) : Option ValidationResult :=
  if method = "tools/call" then
    match request.get "params" with
    | some params =>
      match (params.get "name").bind Json.asStr with
      | some name =>
        if is_dangerous_tool name then
          some { allowed := false
                 reason := some ("Dangerous tool " ++ sq ++ name ++ sq ++
                                 " blocked by security policy")
                 confidence := some q09
                 request_id := request_id, timestamp := timestamp }
        else
          match params.get "arguments" with
          | some args =>
            if contains_injection_patterns args then
              some { allowed := false
                     reason := some ("Tool " ++ sq ++ name ++ sq ++
                                     " arguments contain injection patterns")
                     confidence := some q08
                     request_id := request_id, timestamp := timestamp }
            else none
          | none => none
      | none => none
    | none => none
  else if method = "resources/read" then
    match request.get "params" with
    | some params =>
      match (params.get "uri").bind Json.asStr with
      | some uri =>
        if contains_path_traversal uri then
          some { allowed := false
                 reason := some ("Resource URI " ++ sq ++ uri ++ sq ++
                                 " contains path traversal patterns")
                 confidence := some q09
                 request_id := request_id, timestamp := timestamp }
        else none
      | none => none
    | none => none
  else if method = "prompts/get" then
    match request.get "params" with
    | some params =>
      match (params.get "name").bind Json.asStr with
      | some name =>
        if contains_prompt_injection name then
          some { allowed := false
                 reason := some ("Prompt " ++ sq ++ name ++ sq ++
                                 " contains injection patterns")
                 confidence := some q08
                 request_id := request_id, timestamp := timestamp }
        else none
      | none => none
    | none => none
  else none

/-- The method string extracted by `validate_request`
(`request.get("method").and_then(as_str).unwrap_or("unknown")`). -/
def methodOf (request : Json) : String :=
  ((request.get "method").bind Json.asStr).getD "unknown"

/-- `ValidationService::validate_request`.  The freshly minted UUID and
RFC 3339 timestamp are parameters `request_id`/`timestamp`; the Guardrails
client call is the parameter `evaluator`.  The Rust function returns
`Result<ValidationResult>` but every path yields `Ok`, so the model is total:
evaluator failures are absorbed into the fail-open/fail-closed verdict. -/
def validate_request (cfg : Config) (evaluator : Json → Except String Bool)
    (request : Json) (request_id timestamp : String) : ValidationResult :=
  let method := methodOf request
  match validate_method_specific request method request_id timestamp with
  | some method_result => method_result
  | none =>
    if cfg.api_key = "test-mode" then
      { allowed := true
        reason := some ("Test mode - " ++ method ++ " validation bypassed")
        confidence := some 1
        request_id := request_id, timestamp := timestamp }
    else
      match evaluator request with
      | .ok is_valid =>
        { allowed := is_valid
          reason := some (if is_valid then "Request approved by Javelin Guardrails"
                          else "Request blocked by Javelin Guardrails")
          confidence := some (if is_valid then q09 else q01)
          request_id := request_id, timestamp := timestamp }
      | .error e =>
        { allowed := cfg.fail_open
          reason := some ((if cfg.fail_open then
                             "Validation service unavailable, failing open: "
                           else
                             "Validation service unavailable, failing closed: ") ++ e)
          confidence := some 0
          request_id := request_id, timestamp := timestamp }

/-- `ValidationService::validate_response`: reuses `validate_request` and
rewrites "Request" to "Response" in the reason. -/
def validate_response (cfg : Config) (evaluator : Json → Except String Bool)
    (response : Json) (request_id timestamp : String) : ValidationResult :=
  let result := validate_request cfg evaluator response request_id timestamp
  { result with
    reason := result.reason.map (fun r => replaceAll r "Request" "Response") }

/-- `Option<String>` to the JSON value `json!` serializes it as. -/
def optStr : Option String → Json
  | some s => .str s
  | none => .null

/-- `Option<f64>` to the JSON value `json!` serializes it as. -/
def optNum : Option ℚ → Json
  | some q => .num q
  | none => .null

/-- `ValidationService::create_blocked_response`: JSON-RPC error `-32600`
carrying reason, confidence, request_id, timestamp and
`blocked_by: "ramparts-proxy"`. -/
def create_blocked_response (original_request : Json)
    (validation_result : ValidationResult) : Json :=
  jobj [("jsonrpc", .str "2.0"),
        ("id", (original_request.get "id").getD .null),
        ("error", jobj
          [("code", .num (-32600)),
           ("message", .str "Request blocked by Javelin Guardrails"),
           ("data", jobj
             [("reason", optStr validation_result.reason),
              ("confidence", optNum validation_result.confidence),
              ("request_id", .str validation_result.request_id),
              ("timestamp", .str validation_result.timestamp),
              ("blocked_by", .str "ramparts-proxy")])])]

/-- `ValidationService::create_error_response`: JSON-RPC error `-32603` for
internal validation failures.  The fresh timestamp is a parameter. -/
def create_error_response (original_request : Json) (error_message : String)
    (timestamp : String) : Json :=
  jobj [("jsonrpc", .str "2.0"),
        ("id", (original_request.get "id").getD .null),
        ("error", jobj
          [("code", .num (-32603)),
           ("message", .str "Internal validation error"),
           ("data", jobj
             [("error", .str error_message),
              ("timestamp", .str timestamp),
              ("service", .str "ramparts-proxy")])])]

/-- Modelled from the spec: `ValidationService::is_fail_open` is called by the
stdio worker but not defined in the sources at hand; per §4.D it is a
passthrough of the configured `javelin.fail_open`. -/
def is_fail_open (cfg : Config) : Bool := cfg.fail_open

/-! ### proxy/src/bin/ramparts-mcp-proxy-stdio.rs — the worker loops

One iteration of each directional worker, acting on an already-read and
already-parsed message (the JSON-parse-failure branch of the loop forwards the
payload unchanged and is modelled by `forwardToServer`/`forwardToClient` on the
raw payload; the claims under verification concern the parsed branch). -/

/-- Effect of one client→server iteration on a parsed request. -/
inductive CSAction where
  | forwardToServer : String → CSAction
  | errorToClient : Json → CSAction
deriving DecidableEq

/-- Effect of one server→client iteration on a parsed response. -/
inductive SCAction where
  | forwardToClient : String → SCAction
  | errorToClient : Json → SCAction
deriving DecidableEq

/-- The blocked-request error the stdio worker hand-builds (lines 174-185 of
the binary): code `-32603`, message "Request blocked by Ramparts security",
data carrying only `reason` and `blocked_by: "ramparts-mcp-proxy-stdio"`. -/
def stdio_blocked_request_error (request : Json)
    (validation_result : ValidationResult) : Json :=
  jobj [("jsonrpc", .str "2.0"),
        ("id", (request.get "id").getD .null),
        ("error", jobj
          [("code", .num (-32603)),
           ("message", .str "Request blocked by Ramparts security"),
           ("data", jobj
             [("reason", optStr validation_result.reason),
              ("blocked_by", .str "ramparts-mcp-proxy-stdio")])])]

/-- The blocked-response error the stdio worker hand-builds (lines 265-276). -/
def stdio_blocked_response_error (response : Json)
    (validation_result : ValidationResult) : Json :=
  jobj [("jsonrpc", .str "2.0"),
        ("id", (response.get "id").getD .null),
        ("error", jobj
          [("code", .num (-32603)),
           ("message", .str "Response blocked by Ramparts security"),
           ("data", jobj
             [("reason", optStr validation_result.reason),
              ("blocked_by", .str "ramparts-mcp-proxy-stdio")])])]

/-- The `match validation_service.validate_request(&request).await` dispatch of
`proxy_client_to_server` (lines 154-204): `Ok` verdicts forward or block,
`Err` obeys the fail policy.  The error timestamp of `create_error_response`
is a parameter. -/
def client_dispatch (cfg : Config) (request : Json) (payload : String)
    (ets : String) : Except String ValidationResult → CSAction
  | .ok validation_result =>
    if validation_result.allowed then .forwardToServer payload
    else .errorToClient (stdio_blocked_request_error request validation_result)
  | .error e =>
    if is_fail_open cfg then .forwardToServer payload
    else .errorToClient (create_error_response request e ets)

/-- One parsed-request iteration of `proxy_client_to_server`.  The validation
service call is infallible (every error path of `validate_request` is absorbed
into a verdict), so the dispatch always receives `.ok`. -/
def proxy_client_to_server_step (cfg : Config)
    (evaluator : Json → Except String Bool) (request : Json) (payload : String)
    (request_id timestamp ets : String) : CSAction :=
  client_dispatch cfg request payload ets
    (.ok (validate_request cfg evaluator request request_id timestamp))

/-- The `match validation_service.validate_response(&response).await` dispatch
of `proxy_server_to_client` (lines 253-286): `Ok` verdicts forward or block;
the `Err` branch forwards the response as-is ("fail-open for responses"). -/
def server_dispatch (response : Json) (payload : String) :
    Except String ValidationResult → SCAction
  | .ok validation_result =>
    if validation_result.allowed then .forwardToClient payload
    else .errorToClient (stdio_blocked_response_error response validation_result)
  | .error _ => .forwardToClient payload

/-- One parsed-response iteration of `proxy_server_to_client`.  As with
requests, `validate_response` is infallible, so the dispatch always receives
`.ok` and its fail-open `Err` branch is unreachable. -/
def proxy_server_to_client_step (cfg : Config)
    (evaluator : Json → Except String Bool) (response : Json) (payload : String)
    (request_id timestamp : String) : SCAction :=
  server_dispatch response payload
    (.ok (validate_response cfg evaluator response request_id timestamp))

/-- Did the client→server iteration forward to the target server? -/
def CSAction.isForward : CSAction → Bool
  | .forwardToServer _ => true
  | .errorToClient _ => false

/-- Did the server→client iteration forward to the client? -/
def SCAction.isForward : SCAction → Bool
  | .forwardToClient _ => true
  | .errorToClient _ => false

/-- The emitted JSON-RPC error of a client→server iteration, if any. -/
def CSAction.errJson : CSAction → Option Json
  | .forwardToServer _ => none
  | .errorToClient e => some e

/-- The emitted JSON-RPC error of a server→client iteration, if any. -/
def SCAction.errJson : SCAction → Option Json
  | .forwardToClient _ => none
  | .errorToClient e => some e

/-- `error.code` of an emitted JSON-RPC error object. -/
def errCode (e : Json) : Option ℚ :=
  ((e.get "error").bind (fun err => err.get "code")).bind Json.asNum

/-- A field of `error.data` of an emitted JSON-RPC error object. -/
def errDataField (e : Json) (field : String) : Option Json :=
  ((e.get "error").bind (fun err => err.get "data")).bind (fun d => d.get field)

/-! ### proxy/src/bin/ramparts-mcp-proxy-stdio.rs — the framed codec -/

/-- Outcome of `read_jsonrpc_message`: `eof` is `None`, `err` is `Some(Err(_))`
and `ok payload rest` is `Some(Ok(payload))` leaving `rest` unconsumed. -/
inductive ReadResult where
  | eof : ReadResult
  | err : ReadResult
  | ok : String → List Char → ReadResult
deriving DecidableEq, Repr

/-- `Content-Length:` — the case-sensitive header prefix recognized by
`read_jsonrpc_message`. -/
def clPre : List Char := "Content-Length:".data

/-- The `content_length = rest.trim().parse::<usize>().ok()` update performed
on a header line (an unparseable value overwrites any earlier one with
`None`). -/
def updateCL (cl : Option Nat) (line : List Char) : Option Nat :=
  match stripPre clPre line with
  | some rest => parseUsize (trim rest)
  | none => cl

/-- Reads exactly `n` bytes: `reader.read_exact` into an `n`-byte buffer,
`none` on EOF mid-frame (or on a read that would split a UTF-8 character,
which the char-level stream cannot represent). -/
def readExact : Nat → List Char → Option (List Char × List Char)
  | 0, s => some ([], s)
  | _ + 1, [] => none
  | n + 1, c :: rest =>
    if c.utf8Size ≤ n + 1 then
      match readExact (n + 1 - c.utf8Size) rest with
      | some pr => some (c :: pr.1, pr.2)
      | none => none
    else none

/-- The code after the header loop of `read_jsonrpc_message` (lines 334-355):
with a recognized length, read exactly that many bytes; otherwise fall back to
reading a single line, trimmed. -/
def afterHeaders (cl : Option Nat) (s : List Char) : ReadResult :=
  match cl with
  | some len =>
    match readExact len s with
    | some pr => .ok ⟨pr.1⟩ pr.2
    | none => .err
  | none =>
    match s with
    | [] => .eof
    | c :: t =>
      let p := splitLine (c :: t)
      .ok ⟨trim p.1⟩ p.2

/-- The header loop of `read_jsonrpc_message` (lines 312-332), processed one
character at a time; `acc` is the partially read current line.  `read_line`
returning `Ok(0)` (EOF) inside the loop makes the whole read return `None`,
which is also what an EOF directly after a non-empty final header line yields
on the next iteration. -/
def headerLoop : List Char → List Char → Option Nat → ReadResult
  | [], acc, cl =>
    if acc.isEmpty then .eof
    else if trimEnd acc = [] then afterHeaders cl []
    else .eof
  | c :: t, acc, cl =>
    if c = '\n' then
      if trimEnd (acc ++ ['\n']) = [] then afterHeaders cl t
      else headerLoop t [] (updateCL cl (trimEnd (acc ++ ['\n'])))
    else headerLoop t (acc ++ [c]) cl

/-- `read_jsonrpc_message` from the stdio binary. -/
def read_jsonrpc_message (s : List Char) : ReadResult :=
  headerLoop s [] none

/-- `write_jsonrpc_message` from the stdio binary: emits
`Content-Length: <len>\r\n\r\n` followed by the exact payload bytes. -/
def write_jsonrpc_message (payload : String) : List Char :=
  "Content-Length: ".data ++ toDecChars (utf8Len payload) ++
    '\r' :: '\n' :: '\r' :: '\n' :: payload.data

/-- Read `n` consecutive framed messages. -/
def readSeq : Nat → List Char → Option (List String)
  | 0, _ => some []
  | n + 1, s =>
    match read_jsonrpc_message s with
    | .ok p rest => (readSeq n rest).map (fun l => p :: l)
    | _ => none

/-! ### Formalized claim predicates -/

mutual
/-- Shape equality as claim C5 states it: at every nesting level objects map
to objects with the identical key list and arrays to arrays of identical
length; scalar positions are unconstrained. -/
def sameShape : Json → Json → Bool
  | .obj fs, .obj gs => sameShapeObj fs gs
  | .obj _, _ => false
  | .arr xs, .arr ys => sameShapeArr xs ys
  | .arr _, _ => false
  | _, _ => true
/-- Object part of `sameShape`: identical keys, values pairwise same-shaped. -/
def sameShapeObj : JObj → JObj → Bool
  | .nil, .nil => true
  | .cons k v r, .cons k2 w r2 => k == k2 && sameShape v w && sameShapeObj r r2
  | _, _ => false
/-- Array part of `sameShape`: identical length, pairwise same-shaped. -/
def sameShapeArr : JArr → JArr → Bool
  | .nil, .nil => true
  | .cons v r, .cons w r2 => sameShape v w && sameShapeArr r r2
  | _, _ => false
end

/-- Is the value the redaction placeholder string? -/
def isRedacted : Json → Bool
  | .str s => s == "***REDACTED***"
  | _ => false

mutual
/-- Shape preservation up to redaction (the amended C5): objects keep their
key list, with values of sensitive keys replaced by `"***REDACTED***"` and
other values related recursively; arrays keep their length; strings stay
strings; other scalars are unchanged. -/
def shapeOkR : Json → Json → Bool
  | .null, .null => true
  | .bool b, .bool b2 => b == b2
  | .num q, .num q2 => q == q2
  | .str _, .str _ => true
  | .arr xs, .arr ys => shapeOkRArr xs ys
  | .obj fs, .obj gs => shapeOkRObj fs gs
  | _, _ => false
/-- Object part of `shapeOkR`. -/
def shapeOkRObj : JObj → JObj → Bool
  | .nil, .nil => true
  | .cons k v r, .cons k2 w r2 =>
    k == k2 && (if is_sensitive_key k then isRedacted w else shapeOkR v w) &&
      shapeOkRObj r r2
  | _, _ => false
/-- Array part of `shapeOkR`. -/
def shapeOkRArr : JArr → JArr → Bool
  | .nil, .nil => true
  | .cons v r, .cons w r2 => shapeOkR v w && shapeOkRArr r r2
  | _, _ => false
end

mutual
/-- Every string in the tree is at most 128 UTF-8 bytes long (the domain on
which `truncate_for_log` is the identity). -/
def shortStrings : Json → Bool
  | .null => true
  | .bool _ => true
  | .num _ => true
  | .str s => utf8Len s ≤ 128
  | .arr xs => shortArr xs
  | .obj fs => shortObj fs
/-- Object part of `shortStrings`. -/
def shortObj : JObj → Bool
  | .nil => true
  | .cons _ v r => shortStrings v && shortObj r
/-- Array part of `shortStrings`. -/
def shortArr : JArr → Bool
  | .nil => true
  | .cons v r => shortStrings v && shortArr r
end

/-! ### Concrete values used by counterexamples and witnesses -/

/-- A production-like configuration: a real api key, fail-closed. -/
def cfgProd : Config := { api_key := "prod-key", fail_open := false }

/-- The test-mode sentinel configuration. -/
def cfgTest : Config := { api_key := "test-mode", fail_open := false }

/-- An evaluator whose calls always succeed with an allow verdict. -/
def evOk : Json → Except String Bool := fun _ => .ok true

/-- An evaluator whose calls always fail (unreachable service). -/
def evErr : Json → Except String Bool := fun _ => .error "connection refused"

/-- The dangerous-tool request of spec scenario 2:
`tools/call` with `params.name = "shell_exec"`. -/
def shellReq : Json :=
  jobj [("jsonrpc", .str "2.0"), ("id", .num 2), ("method", .str "tools/call"),
        ("params", jobj [("name", .str "shell_exec"), ("arguments", jobj [])])]

/-- A harmless request that triggers no local rule (`tools/list`). -/
def listReq : Json :=
  jobj [("jsonrpc", .str "2.0"), ("id", .num 1), ("method", .str "tools/list")]

/-- A plain JSON-RPC response value. -/
def respOk : Json :=
  jobj [("jsonrpc", .str "2.0"), ("id", .num 1), ("result", jobj [])]

/-- An object whose sensitive key `token` holds an object value. -/
def nestedTokenObj : Json :=
  jobj [("token", jobj [("a", .num 1)])]

/-- A 200-byte ASCII string (sanitizing it truncates; truncating again
truncates differently). -/
def s200 : String := ⟨List.replicate 200 'a'⟩

/-- A 129-byte string whose byte 128 falls inside a two-byte character:
127 ASCII `a`s followed by `é`. -/
def c7bad : String := ⟨List.replicate 127 'a' ++ ['é']⟩

/-- Projection used to discriminate sanitizer outputs. -/
def strOfOptJson : Option Json → Option String
  | some (.str s) => some s
  | _ => none

/-! ## Theorems

First the log sanitizer (claims C5, C6, C7), then the validation service and
worker loops (C1-C4), then the framed codec (C8-C10). -/

/-- Combined size-measure induction behind the amended C5: every successful
sanitizer output is shape-identical to the input up to redaction. -/
theorem sanitize_shapeOkR_aux :
    ∀ n : Nat,
      (∀ v w, jsize v ≤ n → sanitize_json_for_log v = some w →
        shapeOkR v w = true) ∧
      (∀ fs gs, osize fs ≤ n → sanitizeObj fs = some gs →
        shapeOkRObj fs gs = true) ∧
      (∀ xs ys, asize xs ≤ n → sanitizeArr xs = some ys →
        shapeOkRArr xs ys = true) := by
  intro n
  induction n with
  | zero =>
    refine ⟨?_, ?_, ?_⟩
    · intro v w hv _
      exact absurd hv (by cases v <;> simp [jsize])
    · intro fs gs hsz hs
      cases fs with
      | nil =>
        simp only [sanitizeObj, Option.some_inj] at hs
        subst hs
        simp [shapeOkRObj]
      | cons k v rest => simp [osize] at hsz
    · intro xs ys hsz hs
      cases xs with
      | nil =>
        simp only [sanitizeArr, Option.some_inj] at hs
        subst hs
        simp [shapeOkRArr]
      | cons v rest => simp [asize] at hsz
  | succ n ih =>
    obtain ⟨ihJ, ihO, ihA⟩ := ih
    refine ⟨?_, ?_, ?_⟩
    · intro v w hv hs
      cases v with
      | null =>
        simp only [sanitize_json_for_log, Option.some_inj] at hs
        subst hs
        simp [shapeOkR]
      | bool b =>
        simp only [sanitize_json_for_log, Option.some_inj] at hs
        subst hs
        simp [shapeOkR]
      | num q =>
        simp only [sanitize_json_for_log, Option.some_inj] at hs
        subst hs
        simp [shapeOkR]
      | str s =>
        simp only [sanitize_json_for_log, Option.map_eq_some'] at hs
        obtain ⟨t, _, rfl⟩ := hs
        simp [shapeOkR]
      | arr xs =>
        simp only [sanitize_json_for_log, Option.map_eq_some'] at hs
        obtain ⟨ys, hy, rfl⟩ := hs
        have hle : asize xs ≤ n := by simp [jsize] at hv; omega
        simp [shapeOkR, ihA xs ys hle hy]
      | obj fs =>
        simp only [sanitize_json_for_log, Option.map_eq_some'] at hs
        obtain ⟨gs, hg, rfl⟩ := hs
        have hle : osize fs ≤ n := by simp [jsize] at hv; omega
        simp [shapeOkR, ihO fs gs hle hg]
    · intro fs gs hsz hs
      cases fs with
      | nil =>
        simp only [sanitizeObj, Option.some_inj] at hs
        subst hs
        simp [shapeOkRObj]
      | cons k v rest =>
        have h2 : osize rest ≤ n := by simp [osize] at hsz; omega
        cases hk : is_sensitive_key k with
        | true =>
          simp only [sanitizeObj, hk, if_true, Option.some_bind,
                     Option.map_eq_some'] at hs
          obtain ⟨r2, hr2, rfl⟩ := hs
          simp [shapeOkRObj, hk, isRedacted, ihO rest r2 h2 hr2]
        | false =>
          simp only [sanitizeObj, hk, Bool.false_eq_true, if_false,
                     Option.bind_eq_some, Option.map_eq_some'] at hs
          obtain ⟨v2, hv2, r2, hr2, rfl⟩ := hs
          have h1 : jsize v ≤ n := by simp [osize] at hsz; omega
          simp [shapeOkRObj, hk, ihJ v v2 h1 hv2, ihO rest r2 h2 hr2]
    · intro xs ys hsz hs
      cases xs with
      | nil =>
        simp only [sanitizeArr, Option.some_inj] at hs
        subst hs
        simp [shapeOkRArr]
      | cons v rest =>
        simp only [sanitizeArr, Option.bind_eq_some, Option.map_eq_some'] at hs
        obtain ⟨v2, hv2, r2, hr2, rfl⟩ := hs
        have h1 : jsize v ≤ n := by simp [asize] at hsz; omega
        have h2 : asize rest ≤ n := by simp [asize] at hsz; omega
        simp [shapeOkRArr, ihJ v v2 h1 hv2, ihA rest r2 h2 hr2]

/-- C5 counterexample: on `{"token": {"a": 1}}` the sanitizer replaces the
nested object by the string `"***REDACTED***"`, so the output is not
shape-identical to the input at every nesting level. -/
theorem c5_counterexample :
    (sanitize_json_for_log nestedTokenObj).map (sameShape nestedTokenObj) =
      some false := by
  decide

/-- C5 (amended): for every JSON value V on which the sanitizer succeeds, the
output has identical key lists at every object level and identical lengths at
every array level reachable without passing a sensitive key; a sensitive key's
value becomes the string `"***REDACTED***"`, strings stay strings and other
scalars are unchanged. -/
theorem c5_amended_shape (v w : Json) (h : sanitize_json_for_log v = some w) :
    shapeOkR v w = true :=
  (sanitize_shapeOkR_aux (jsize v)).1 v w le_rfl h

/-- Witness for `c5_amended_shape` at a concrete nested input. -/
theorem c5_witness :
    sanitize_json_for_log nestedTokenObj =
      some (jobj [("token", .str "***REDACTED***")]) ∧
    shapeOkR nestedTokenObj (jobj [("token", .str "***REDACTED***")]) = true :=
  ⟨by decide, c5_amended_shape nestedTokenObj _ (by decide)⟩

/-- Combined size-measure induction behind the amended C6: on trees whose
strings are all at most 128 bytes, sanitizing succeeds and the output is a
fixed point of the sanitizer. -/
theorem sanitize_fixpoint_aux :
    ∀ n : Nat,
      (∀ v, jsize v ≤ n → shortStrings v = true →
        ∃ w, sanitize_json_for_log v = some w ∧
          sanitize_json_for_log w = some w) ∧
      (∀ fs, osize fs ≤ n → shortObj fs = true →
        ∃ gs, sanitizeObj fs = some gs ∧ sanitizeObj gs = some gs) ∧
      (∀ xs, asize xs ≤ n → shortArr xs = true →
        ∃ ys, sanitizeArr xs = some ys ∧ sanitizeArr ys = some ys) := by
  intro n
  induction n with
  | zero =>
    refine ⟨?_, ?_, ?_⟩
    · intro v hv _
      exact absurd hv (by cases v <;> simp [jsize])
    · intro fs hsz _
      cases fs with
      | nil => exact ⟨.nil, rfl, rfl⟩
      | cons k v rest => simp [osize] at hsz
    · intro xs hsz _
      cases xs with
      | nil => exact ⟨.nil, rfl, rfl⟩
      | cons v rest => simp [asize] at hsz
  | succ n ih =>
    obtain ⟨ihJ, ihO, ihA⟩ := ih
    refine ⟨?_, ?_, ?_⟩
    · intro v hv hshort
      cases v with
      | null => exact ⟨.null, rfl, rfl⟩
      | bool b => exact ⟨.bool b, rfl, rfl⟩
      | num q => exact ⟨.num q, rfl, rfl⟩
      | str s =>
        have hlen : utf8Len s ≤ 128 := by simpa [shortStrings] using hshort
        have ht : truncate_for_log s = some s := by
          simp [truncate_for_log, hlen]
        exact ⟨.str s, by simp [sanitize_json_for_log, ht],
               by simp [sanitize_json_for_log, ht]⟩
      | arr xs =>
        have hle : asize xs ≤ n := by simp [jsize] at hv; omega
        obtain ⟨ys, h1, h2⟩ := ihA xs hle (by simpa [shortStrings] using hshort)
        exact ⟨.arr ys, by simp [sanitize_json_for_log, h1],
               by simp [sanitize_json_for_log, h2]⟩
      | obj fs =>
        have hle : osize fs ≤ n := by simp [jsize] at hv; omega
        obtain ⟨gs, h1, h2⟩ := ihO fs hle (by simpa [shortStrings] using hshort)
        exact ⟨.obj gs, by simp [sanitize_json_for_log, h1],
               by simp [sanitize_json_for_log, h2]⟩
    · intro fs hsz hshort
      cases fs with
      | nil => exact ⟨.nil, rfl, rfl⟩
      | cons k v rest =>
        have h2 : osize rest ≤ n := by simp [osize] at hsz; omega
        have hsv : shortStrings v = true ∧ shortObj rest = true := by
          simpa [shortObj, Bool.and_eq_true] using hshort
        obtain ⟨r2, hr1, hr2⟩ := ihO rest h2 hsv.2
        cases hk : is_sensitive_key k with
        | true =>
          refine ⟨.cons k (Json.str "***REDACTED***") r2, ?_, ?_⟩
          · simp [sanitizeObj, hk, hr1]
          · simp [sanitizeObj, hk, hr2]
        | false =>
          have h1 : jsize v ≤ n := by simp [osize] at hsz; omega
          obtain ⟨w, hw1, hw2⟩ := ihJ v h1 hsv.1
          refine ⟨.cons k w r2, ?_, ?_⟩
          · simp [sanitizeObj, hk, hw1, hr1]
          · simp [sanitizeObj, hk, hw2, hr2]
    · intro xs hsz hshort
      cases xs with
      | nil => exact ⟨.nil, rfl, rfl⟩
      | cons v rest =>
        have h1 : jsize v ≤ n := by simp [asize] at hsz; omega
        have h2 : asize rest ≤ n := by simp [asize] at hsz; omega
        have hsv : shortStrings v = true ∧ shortArr rest = true := by
          simpa [shortArr, Bool.and_eq_true] using hshort
        obtain ⟨w, hw1, hw2⟩ := ihJ v h1 hsv.1
        obtain ⟨r2, hr1, hr2⟩ := ihA rest h2 hsv.2
        exact ⟨.cons w r2, by simp [sanitizeArr, hw1, hr1],
               by simp [sanitizeArr, hw2, hr2]⟩

/-- C6 counterexample: sanitizing a 200-byte string truncates it to a 143-byte
string, and sanitizing again truncates that once more, so
`sanitize (sanitize V)` differs from `sanitize V` at `V = "a"*200`. -/
theorem c6_counterexample :
    (sanitize_json_for_log (Json.str s200)).bind sanitize_json_for_log ≠
      sanitize_json_for_log (Json.str s200) := by
  decide

/-- C6 (amended): the sanitizer is idempotent on every JSON value all of whose
strings are at most 128 UTF-8 bytes long (redacted values and unchanged short
strings are fixed points); on longer strings `truncate_for_log` re-truncates
its own output, so idempotence fails in general. -/
theorem c6_amended_idempotent (v : Json) (h : shortStrings v = true) :
    (sanitize_json_for_log v).bind sanitize_json_for_log =
      sanitize_json_for_log v := by
  obtain ⟨w, h1, h2⟩ := (sanitize_fixpoint_aux (jsize v)).1 v le_rfl h
  rw [h1]
  simpa using h2

/-- Witness for `c6_amended_idempotent` at a concrete input with a sensitive
key and short strings. -/
theorem c6_witness :
    shortStrings (jobj [("token", .str "x"), ("ok", .str "b")]) = true ∧
    (sanitize_json_for_log (jobj [("token", .str "x"), ("ok", .str "b")])).bind
        sanitize_json_for_log =
      sanitize_json_for_log (jobj [("token", .str "x"), ("ok", .str "b")]) :=
  ⟨by decide, c6_amended_idempotent _ (by decide)⟩

/-- C7: `truncate_for_log` slices the raw bytes `&input[..128]` without
seeking a character boundary; on a 129-byte input whose byte 128 lies inside
a two-byte character the slice panics (modelled as `none`), contradicting the
claim that truncation happens at a codepoint boundary and never panics. -/
theorem c7_truncate_panics :
    utf8Len c7bad = 129 ∧ truncate_for_log c7bad = none := by
  exact ⟨by decide, by decide⟩

/-- Every verdict produced by the local rule engine blocks: `some` results of
`validate_method_specific` always carry `allowed = false`. -/
theorem validate_method_specific_blocks (request : Json)
    (method rid ts : String) (r : ValidationResult)
    (h : validate_method_specific request method rid ts = some r) :
    r.allowed = false := by
  unfold validate_method_specific at h
  repeat' split at h
  all_goals
    first
      | { have h2 := Option.some_inj.mp h; subst h2; rfl }
      | exact absurd h (by simp)

/-- C2: with `fail_open = false` and a failing evaluator call, the verdict
blocks and the client→server worker emits a JSON-RPC error to the client; it
never forwards the payload to the child's stdin. -/
theorem c2_fail_closed_never_forwards (cfg : Config)
    (ev : Json → Except String Bool) (req : Json) (e : String)
    (payload rid ts ets : String)
    (h1 : cfg.fail_open = false) (h2 : cfg.api_key ≠ "test-mode")
    (h3 : ev req = .error e) :
    (validate_request cfg ev req rid ts).allowed = false ∧
    proxy_client_to_server_step cfg ev req payload rid ts ets =
      .errorToClient
        (stdio_blocked_request_error req (validate_request cfg ev req rid ts)) ∧
    ∀ q, proxy_client_to_server_step cfg ev req payload rid ts ets ≠
      .forwardToServer q := by
  have hall : (validate_request cfg ev req rid ts).allowed = false := by
    unfold validate_request
    cases hms : validate_method_specific req (methodOf req) rid ts with
    | some r => simpa [hms] using validate_method_specific_blocks _ _ _ _ _ hms
    | none => simp [hms, h2, h3, h1]
  refine ⟨hall, ?_, ?_⟩
  · simp [proxy_client_to_server_step, client_dispatch, hall]
  · intro q hq
    simp [proxy_client_to_server_step, client_dispatch, hall] at hq

/-- Witness for `c2_fail_closed_never_forwards`: a fail-closed configuration,
an unreachable evaluator and a harmless request. -/
theorem c2_witness :
    (cfgProd.fail_open = false ∧ cfgProd.api_key ≠ "test-mode" ∧
       evErr listReq = .error "connection refused") ∧
    ((validate_request cfgProd evErr listReq "r" "t").allowed = false ∧
     proxy_client_to_server_step cfgProd evErr listReq "payload" "r" "t" "et" =
       .errorToClient
         (stdio_blocked_request_error listReq
           (validate_request cfgProd evErr listReq "r" "t")) ∧
     ∀ q, proxy_client_to_server_step cfgProd evErr listReq "payload" "r" "t" "et" ≠
       .forwardToServer q) :=
  ⟨⟨rfl, by decide, rfl⟩,
   c2_fail_closed_never_forwards cfgProd evErr listReq "connection refused"
     "payload" "r" "t" "et" rfl (by decide) rfl⟩

/-- C3: response-direction Guardrails failures are NOT always fail-open.
`validate_response` absorbs the failed call into an `Ok` verdict with
`allowed = fail_open`, so with `fail_open = false` the server→client worker
blocks the response and emits an error instead of forwarding it; the worker's
explicit fail-open `Err` branch is unreachable. -/
theorem c3_response_failure_blocked :
    (validate_response cfgProd evErr respOk "r" "t").allowed = false ∧
    (proxy_server_to_client_step cfgProd evErr respOk "payload" "r" "t").isForward
      = false ∧
    proxy_server_to_client_step cfgProd evErr respOk "payload" "r" "t" =
      .errorToClient
        (stdio_blocked_response_error respOk
          (validate_response cfgProd evErr respOk "r" "t")) := by
  refine ⟨by decide, by decide, by decide⟩

/-- C1 counterexample: blocking the `tools/call` request with
`params.name = "shell_exec"` makes the stdio worker emit error code `-32603`,
not `-32600`, and its `error.data` carries no `confidence` field. -/
theorem c1_counterexample :
    ((proxy_client_to_server_step cfgProd evOk shellReq "pl" "r" "t" "et").errJson.bind
        errCode) = some (-32603) ∧
    ((-32603 : ℚ) ≠ -32600) ∧
    ((proxy_client_to_server_step cfgProd evOk shellReq "pl" "r" "t" "et").errJson.bind
        (fun e => errDataField e "confidence")) = none := by
  refine ⟨by decide, by decide, by decide⟩

/-- C1 (amended): for every blocked verdict the stdio client→server worker
emits a JSON-RPC error with code `-32603` whose `data` carries only the
verdict's reason and `blocked_by: "ramparts-mcp-proxy-stdio"`; the separate
`create_blocked_response` helper (not called by this worker) is the function
that produces code `-32600` with reason, confidence, request_id, timestamp and
`blocked_by: "ramparts-proxy"`. -/
theorem c1_amended_blocked_error_shape (cfg : Config) (req : Json)
    (payload ets : String) (vr : ValidationResult) (h : vr.allowed = false) :
    client_dispatch cfg req payload ets (.ok vr) =
      .errorToClient (stdio_blocked_request_error req vr) ∧
    errCode (stdio_blocked_request_error req vr) = some (-32603) ∧
    errDataField (stdio_blocked_request_error req vr) "blocked_by" =
      some (.str "ramparts-mcp-proxy-stdio") ∧
    errDataField (stdio_blocked_request_error req vr) "reason" =
      some (optStr vr.reason) ∧
    errDataField (stdio_blocked_request_error req vr) "confidence" = none ∧
    errCode (create_blocked_response req vr) = some (-32600) ∧
    errDataField (create_blocked_response req vr) "reason" =
      some (optStr vr.reason) ∧
    errDataField (create_blocked_response req vr) "confidence" =
      some (optNum vr.confidence) ∧
    errDataField (create_blocked_response req vr) "request_id" =
      some (.str vr.request_id) ∧
    errDataField (create_blocked_response req vr) "timestamp" =
      some (.str vr.timestamp) ∧
    errDataField (create_blocked_response req vr) "blocked_by" =
      some (.str "ramparts-proxy") := by
  refine ⟨by simp [client_dispatch, h], rfl, rfl, rfl, rfl, rfl, rfl, rfl,
         rfl, rfl, rfl⟩

/-- Witness for `c1_amended_blocked_error_shape` at the blocked `shell_exec`
request, whose verdict carries confidence 0.9. -/
theorem c1_witness :
    ((validate_request cfgProd evOk shellReq "r" "t").allowed = false ∧
     (validate_request cfgProd evOk shellReq "r" "t").confidence = some q09) ∧
    (client_dispatch cfgProd shellReq "pl" "et"
        (.ok (validate_request cfgProd evOk shellReq "r" "t")) =
      .errorToClient
        (stdio_blocked_request_error shellReq
          (validate_request cfgProd evOk shellReq "r" "t")) ∧
     errCode (stdio_blocked_request_error shellReq
         (validate_request cfgProd evOk shellReq "r" "t")) = some (-32603) ∧
     errDataField (stdio_blocked_request_error shellReq
         (validate_request cfgProd evOk shellReq "r" "t")) "blocked_by" =
       some (.str "ramparts-mcp-proxy-stdio") ∧
     errDataField (stdio_blocked_request_error shellReq
         (validate_request cfgProd evOk shellReq "r" "t")) "reason" =
       some (optStr (validate_request cfgProd evOk shellReq "r" "t").reason) ∧
     errDataField (stdio_blocked_request_error shellReq
         (validate_request cfgProd evOk shellReq "r" "t")) "confidence" = none ∧
     errCode (create_blocked_response shellReq
         (validate_request cfgProd evOk shellReq "r" "t")) = some (-32600) ∧
     errDataField (create_blocked_response shellReq
         (validate_request cfgProd evOk shellReq "r" "t")) "reason" =
       some (optStr (validate_request cfgProd evOk shellReq "r" "t").reason) ∧
     errDataField (create_blocked_response shellReq
         (validate_request cfgProd evOk shellReq "r" "t")) "confidence" =
       some (optNum (validate_request cfgProd evOk shellReq "r" "t").confidence) ∧
     errDataField (create_blocked_response shellReq
         (validate_request cfgProd evOk shellReq "r" "t")) "request_id" =
       some (.str (validate_request cfgProd evOk shellReq "r" "t").request_id) ∧
     errDataField (create_blocked_response shellReq
         (validate_request cfgProd evOk shellReq "r" "t")) "timestamp" =
       some (.str (validate_request cfgProd evOk shellReq "r" "t").timestamp) ∧
     errDataField (create_blocked_response shellReq
         (validate_request cfgProd evOk shellReq "r" "t")) "blocked_by" =
       some (.str "ramparts-proxy")) :=
  ⟨⟨by decide, by decide⟩,
   c1_amended_blocked_error_shape cfgProd shellReq "pl" "et"
     (validate_request cfgProd evOk shellReq "r" "t") (by decide)⟩

/-- C4 counterexample: even with the `"test-mode"` api key, the method-specific
rules run first, so the `shell_exec` request is blocked rather than allowed. -/
theorem c4_counterexample :
    cfgTest.api_key = "test-mode" ∧
    (validate_request cfgTest evOk shellReq "r" "t").allowed = false := by
  refine ⟨rfl, by decide⟩

/-- C4 (amended): with api key `"test-mode"`, every request that the
method-specific rules do not block yields the allow verdict with reason
`"Test mode - <method> validation bypassed"` and confidence 1.0, and the
result does not depend on the evaluator (no network call is consulted). -/
theorem c4_amended_test_mode (cfg : Config)
    (ev ev2 : Json → Except String Bool) (req : Json) (rid ts : String)
    (hk : cfg.api_key = "test-mode")
    (hm : validate_method_specific req (methodOf req) rid ts = none) :
    validate_request cfg ev req rid ts =
      { allowed := true
        reason := some ("Test mode - " ++ methodOf req ++ " validation bypassed")
        confidence := some 1
        request_id := rid, timestamp := ts } ∧
    validate_request cfg ev req rid ts = validate_request cfg ev2 req rid ts := by
  constructor
  · unfold validate_request
    simp [hm, hk]
  · unfold validate_request
    simp [hm, hk]

/-- Witness for `c4_amended_test_mode` at a `tools/list` request, with two
different evaluators. -/
theorem c4_witness :
    (cfgTest.api_key = "test-mode" ∧
     validate_method_specific listReq (methodOf listReq) "r" "t" = none) ∧
    (validate_request cfgTest evOk listReq "r" "t" =
      { allowed := true
        reason := some ("Test mode - " ++ methodOf listReq ++ " validation bypassed")
        confidence := some 1
        request_id := "r", timestamp := "t" } ∧
     validate_request cfgTest evOk listReq "r" "t" =
       validate_request cfgTest evErr listReq "r" "t") :=
  ⟨⟨rfl, by decide⟩,
   c4_amended_test_mode cfgTest evOk evErr listReq "r" "t" rfl (by decide)⟩

/-! ### Helper lemmas for the framed codec -/

/-- A digit character is not whitespace. -/
theorem isDigC_not_ws {c : Char} (h : isDigC c = true) : isWsC c = false := by
  have h1 : c ≠ ' ' := by rintro rfl; exact absurd h (by decide)
  have h2 : c ≠ '\t' := by rintro rfl; exact absurd h (by decide)
  have h3 : c ≠ '\n' := by rintro rfl; exact absurd h (by decide)
  have h4 : c ≠ '\r' := by rintro rfl; exact absurd h (by decide)
  simp [isWsC, h1, h2, h3, h4]

/-- A digit character is not a newline. -/
theorem isDigC_ne_nl {c : Char} (h : isDigC c = true) : c ≠ '\n' := by
  rintro rfl; exact absurd h (by decide)

/-- A digit character is not a plus sign. -/
theorem isDigC_ne_plus {c : Char} (h : isDigC c = true) : c ≠ '+' := by
  rintro rfl; exact absurd h (by decide)

/-- `digC` of a digit value is a digit character. -/
theorem digC_isDig {d : Nat} (h : d < 10) : isDigC (digC d) = true := by
  interval_cases d <;> decide

/-- Numeric value of `digC`. -/
theorem digC_toNat {d : Nat} (h : d < 10) : (digC d).toNat = 48 + d := by
  interval_cases d <;> decide

/-- `foldl` form of `valD` with a nonzero accumulator. -/
theorem valD_from (l : List Char) :
    ∀ a : Nat, l.foldl (fun a c => a * 10 + (c.toNat - 48)) a =
      a * 10 ^ l.length + valD l := by
  induction l with
  | nil => intro a; simp [valD]
  | cons c t ih =>
    intro a
    simp only [valD, List.foldl_cons, List.length_cons] at ih ⊢
    rw [ih (a * 10 + (c.toNat - 48)), ih (0 * 10 + (c.toNat - 48))]
    ring

/-- Every character `toDecAux` emits is a digit. -/
theorem toDecAux_digits :
    ∀ fuel m acc, (∀ c ∈ acc, isDigC c = true) →
      ∀ c ∈ toDecAux fuel m acc, isDigC c = true := by
  intro fuel
  induction fuel with
  | zero =>
    intro m acc hacc c hc
    cases m with
    | zero => exact hacc c hc
    | succ k => exact hacc c hc
  | succ fuel ih =>
    intro m acc hacc c hc
    cases m with
    | zero => exact hacc c hc
    | succ k =>
      refine ih ((k + 1) / 10) (digC ((k + 1) % 10) :: acc) ?_ c hc
      intro c2 hc2
      rcases List.mem_cons.mp hc2 with h | h
      · subst h; exact digC_isDig (Nat.mod_lt _ (by omega))
      · exact hacc c2 h

/-- `toDecAux` prepends in front of a nonempty accumulator. -/
theorem toDecAux_ne_nil_of_acc :
    ∀ fuel m acc, acc ≠ [] → toDecAux fuel m acc ≠ [] := by
  intro fuel
  induction fuel with
  | zero =>
    intro m acc hacc
    cases m with
    | zero => simpa [toDecAux] using hacc
    | succ k => simpa [toDecAux] using hacc
  | succ fuel ih =>
    intro m acc hacc
    cases m with
    | zero => simpa [toDecAux] using hacc
    | succ k => exact ih _ _ (by simp)

/-- Value computed by `toDecAux`. -/
theorem toDecAux_val :
    ∀ fuel m acc, m ≤ fuel →
      valD (toDecAux fuel m acc) = m * 10 ^ acc.length + valD acc := by
  intro fuel
  induction fuel with
  | zero =>
    intro m acc hm
    interval_cases m
    simp [toDecAux]
  | succ fuel ih =>
    intro m acc hm
    cases m with
    | zero => simp [toDecAux]
    | succ k =>
      have hq : (k + 1) / 10 ≤ fuel := by
        have := Nat.div_lt_self (show 0 < k + 1 by omega) (show 1 < 10 by omega)
        omega
      have hmod : (k + 1) % 10 < 10 := Nat.mod_lt _ (by omega)
      have hx := ih ((k + 1) / 10) (digC ((k + 1) % 10) :: acc) hq
      have hcons : valD (digC ((k + 1) % 10) :: acc) =
          ((k + 1) % 10) * 10 ^ acc.length + valD acc := by
        simp only [valD, List.foldl_cons]
        rw [show (0 : Nat) * 10 + ((digC ((k + 1) % 10)).toNat - 48) =
              (k + 1) % 10 by rw [digC_toNat hmod]; omega]
        exact valD_from acc ((k + 1) % 10)
      have hdm : 10 * ((k + 1) / 10) + (k + 1) % 10 = k + 1 :=
        Nat.div_add_mod (k + 1) 10
      have key : ∀ q r P V : Nat, 10 * q + r = k + 1 →
          q * (P * 10) + (r * P + V) = (k + 1) * P + V := by
        intro q r P V h
        rw [← h]; ring
      calc valD (toDecAux (fuel + 1) (k + 1) acc)
          = valD (toDecAux fuel ((k + 1) / 10) (digC ((k + 1) % 10) :: acc)) := rfl
        _ = (k + 1) / 10 * 10 ^ (acc.length + 1) +
              (((k + 1) % 10) * 10 ^ acc.length + valD acc) := by
              rw [hx, hcons]; simp
        _ = (k + 1) * 10 ^ acc.length + valD acc := by
              rw [pow_succ]
              exact key _ _ _ _ hdm

/-- Every character of `toDecChars n` is a digit. -/
theorem toDecChars_digits (n : Nat) : ∀ c ∈ toDecChars n, isDigC c = true := by
  unfold toDecChars
  split
  · intro c hc
    simp only [List.mem_singleton] at hc
    subst hc; decide
  · exact toDecAux_digits n n [] (by simp)

/-- `toDecChars` never returns the empty list. -/
theorem toDecChars_ne_nil (n : Nat) : toDecChars n ≠ [] := by
  unfold toDecChars
  split
  · simp
  · rename_i hn
    cases n with
    | zero => exact absurd rfl hn
    | succ k =>
      show toDecAux (k + 1) (k + 1) [] ≠ []
      rw [show toDecAux (k + 1) (k + 1) [] =
            toDecAux k ((k + 1) / 10) [digC ((k + 1) % 10)] from rfl]
      exact toDecAux_ne_nil_of_acc _ _ _ (by simp)

/-- The decimal rendering of `n` evaluates back to `n`. -/
theorem valD_toDecChars (n : Nat) : valD (toDecChars n) = n := by
  unfold toDecChars
  split
  · rename_i hn; subst hn; decide
  · have := toDecAux_val n n [] le_rfl
    simpa [valD] using this

/-- Round trip of the decimal codec: `parse::<usize>` inverts `format!` for
any value an actual `usize` can hold. -/
theorem parse_toDec (n : Nat) (hn : n < 2 ^ 64) :
    parseUsize (toDecChars n) = some n := by
  have hdig := toDecChars_digits n
  have hne := toDecChars_ne_nil n
  have hval := valD_toDecChars n
  cases hD : toDecChars n with
  | nil => exact absurd hD hne
  | cons c rest =>
    rw [hD] at hval
    have hc : isDigC c = true := by
      have := hdig c (by rw [hD]; simp)
      exact this
    have hplus : ¬ c = '+' := isDigC_ne_plus hc
    have hall : (c :: rest).all isDigC = true := by
      rw [List.all_eq_true]
      intro x hx
      exact hdig x (by rw [hD]; exact hx)
    simp only [parseUsize, hplus, ite_false]
    have hn2 : n < 18446744073709551616 := by
      rw [show (18446744073709551616 : Nat) = 2 ^ 64 by norm_num]
      exact hn
    simp [hall, hval, hn2]

/-- Appending one whitespace character does not change `trimEnd`. -/
theorem trimEnd_app_ws {w : Char} (hw : isWsC w = true) (l : List Char) :
    trimEnd (l ++ [w]) = trimEnd l := by
  simp [trimEnd, List.dropWhile_cons, hw]

/-- Appending one non-whitespace character survives `trimEnd`. -/
theorem trimEnd_app_nonws {c : Char} (hc : isWsC c = false) (l : List Char) :
    trimEnd (l ++ [c]) = l ++ [c] := by
  simp [trimEnd, List.dropWhile_cons, hc]

/-- A nonempty all-digit suffix survives `trimEnd`. -/
theorem trimEnd_app_digits {d : List Char} (hne : d ≠ [])
    (hdig : ∀ c ∈ d, isDigC c = true) (l : List Char) :
    trimEnd (l ++ d) = l ++ d := by
  rcases List.eq_nil_or_concat d with rfl | ⟨d2, c, rfl⟩
  · exact absurd rfl hne
  · rw [List.concat_eq_append, ← List.append_assoc]
    exact trimEnd_app_nonws
      (isDigC_not_ws (hdig c (by simp))) (l ++ d2)

/-- `trimEnd` distributes over append. -/
theorem trimEnd_app (a b : List Char) :
    trimEnd (a ++ b) = if trimEnd b = [] then trimEnd a else a ++ trimEnd b := by
  unfold trimEnd
  rw [List.reverse_append, List.dropWhile_append]
  by_cases hb : (List.dropWhile isWsC b.reverse).isEmpty = true
  · have hbe : List.dropWhile isWsC b.reverse = [] := by
      simpa [List.isEmpty_iff] using hb
    rw [if_pos hb, if_pos (by simp [hbe])]
  · have hbe : List.dropWhile isWsC b.reverse ≠ [] := by
      simpa [List.isEmpty_iff] using hb
    rw [if_neg hb, if_neg (by simp [hbe])]
    simp

/-- The head surviving a `dropWhile` falsifies the predicate. -/
theorem dropWhile_head_false :
    ∀ (l : List Char) (c : Char) (t : List Char),
      List.dropWhile isWsC l = c :: t → isWsC c = false := by
  intro l
  induction l with
  | nil => intro c t h; simp at h
  | cons x xs ih =>
    intro c t h
    rw [List.dropWhile_cons] at h
    by_cases hx : isWsC x = true
    · rw [if_pos hx] at h
      exact ih c t h
    · rw [if_neg hx] at h
      injection h with h1 h2
      subst h1
      simpa using hx

/-- `trimEnd` is idempotent. -/
theorem trimEnd_idem (l : List Char) : trimEnd (trimEnd l) = trimEnd l := by
  have key : List.dropWhile isWsC (List.dropWhile isWsC l.reverse) =
      List.dropWhile isWsC l.reverse := by
    cases hh : List.dropWhile isWsC l.reverse with
    | nil => rfl
    | cons c t =>
      have hc : isWsC c = false := dropWhile_head_false l.reverse c t hh
      simp [List.dropWhile_cons, hc]
  unfold trimEnd
  rw [List.reverse_reverse, key]

/-- Dropping a leading whitespace character under `trimL`. -/
theorem trimL_cons_ws {w : Char} (hw : isWsC w = true) (l : List Char) :
    trimL (w :: l) = trimL l := by
  simp [trimL, List.dropWhile_cons, hw]

/-- `trimL` keeps a non-whitespace head. -/
theorem trimL_cons_nonws {c : Char} (hc : isWsC c = false) (l : List Char) :
    trimL (c :: l) = c :: l := by
  simp [trimL, List.dropWhile_cons, hc]

/-- `trim` ignores a trailing newline. -/
theorem trim_app_newline (l : List Char) : trim (l ++ ['\n']) = trim l := by
  unfold trim
  rw [trimEnd_app_ws (by decide) l]

/-- `trim` of an already end-trimmed list. -/
theorem trim_trimEnd (l : List Char) : trim (trimEnd l) = trim l := by
  unfold trim
  rw [trimEnd_idem]

/-- `stripPre` removes a literal prefix. -/
theorem stripPre_app (pre rest : List Char) :
    stripPre pre (pre ++ rest) = some rest := by
  induction pre with
  | nil => rfl
  | cons p ps ih => simp [stripPre, ih]

/-- `splitLine` cuts at the first newline. -/
theorem splitLine_app {xs : List Char} (hxs : '\n' ∉ xs) (t : List Char) :
    splitLine (xs ++ '\n' :: t) = (xs ++ ['\n'], t) := by
  induction xs with
  | nil => simp [splitLine]
  | cons x xs ih =>
    have hx : ¬ x = '\n' := fun h => hxs (by simp [h])
    have hxs2 : '\n' ∉ xs := fun h => hxs (by simp [h])
    simp [splitLine, hx, ih hxs2]

/-- One full header-line step of the header loop. -/
theorem headerLoop_line {xs : List Char} (hxs : '\n' ∉ xs) :
    ∀ (t acc : List Char) (cl : Option Nat),
      headerLoop (xs ++ '\n' :: t) acc cl =
        if trimEnd (acc ++ xs) = [] then afterHeaders cl t
        else headerLoop t [] (updateCL cl (trimEnd (acc ++ xs))) := by
  induction xs with
  | nil =>
    intro t acc cl
    show headerLoop ('\n' :: t) acc cl = _
    rw [show headerLoop ('\n' :: t) acc cl =
          (if trimEnd (acc ++ ['\n']) = [] then afterHeaders cl t
           else headerLoop t [] (updateCL cl (trimEnd (acc ++ ['\n'])))) from by
      simp [headerLoop]]
    rw [trimEnd_app_ws (by decide) acc, List.append_nil]
  | cons x xs ih =>
    intro t acc cl
    have hx : ¬ x = '\n' := fun h => hxs (by simp [h])
    have hxs2 : '\n' ∉ xs := fun h => hxs (by simp [h])
    show headerLoop (x :: (xs ++ '\n' :: t)) acc cl = _
    simp only [headerLoop, hx, if_false, ite_false]
    rw [ih hxs2 t (acc ++ [x]) cl]
    rw [List.append_assoc, List.singleton_append]

/-- `readExact` consumes exactly the bytes of its first argument. -/
theorem readExact_app (l rest : List Char) :
    readExact (byteLen l) (l ++ rest) = some (l, rest) := by
  induction l with
  | nil => simp [byteLen, readExact]
  | cons c t ih =>
    have hpos := Char.utf8Size_pos c
    have hlen : byteLen (c :: t) = c.utf8Size + byteLen t := rfl
    cases hb : byteLen (c :: t) with
    | zero => omega
    | succ k =>
      show readExact (k + 1) (c :: (t ++ rest)) = some (c :: t, rest)
      have hle : c.utf8Size ≤ k + 1 := by omega
      have hsub : k + 1 - c.utf8Size = byteLen t := by omega
      simp only [readExact, hle, if_pos, hsub, ih]

/-- The newline fallback of `afterHeaders`. -/
theorem afterHeaders_none_app {L : List Char} (hL : '\n' ∉ L) (tail : List Char) :
    afterHeaders none (L ++ '\n' :: tail) = .ok ⟨trim L⟩ tail := by
  cases L with
  | nil =>
    show afterHeaders none ('\n' :: tail) = _
    simp only [afterHeaders, splitLine, if_true]
    rw [show trim ['\n'] = trim ([] : List Char) from by decide]
  | cons x xs =>
    show afterHeaders none (x :: (xs ++ '\n' :: tail)) = _
    have hx : ¬ x = '\n' := fun h => hL (by simp [h])
    have hxs : '\n' ∉ xs := fun h => hL (by simp [h])
    simp only [afterHeaders]
    rw [show (x :: (xs ++ '\n' :: tail)) = (x :: xs) ++ '\n' :: tail from rfl]
    rw [splitLine_app hL tail]
    rw [show trim ((x :: xs) ++ ['\n']) = trim (x :: xs) from
      trim_app_newline (x :: xs)]

/-- Reading a written frame (with arbitrary following bytes) returns the exact
payload and leaves the following bytes unconsumed. -/
theorem read_write_app (p : String) (rest : List Char)
    (hp : utf8Len p < 2 ^ 64) :
    read_jsonrpc_message (write_jsonrpc_message p ++ rest) = .ok p rest := by
  have hA : ("Content-Length: ".data : List Char) =
      'C' :: "ontent-Length: ".data := by decide
  have hsplitA : ("Content-Length: ".data : List Char) = clPre ++ [' '] := by
    decide
  have hDne := toDecChars_ne_nil (utf8Len p)
  have hDdig := toDecChars_digits (utf8Len p)
  have hstream : write_jsonrpc_message p ++ rest =
      ("Content-Length: ".data ++ toDecChars (utf8Len p) ++ ['\r']) ++ '\n' ::
        ('\r' :: '\n' :: (p.data ++ rest)) := by
    simp [write_jsonrpc_message]
  have hnnl : '\n' ∉
      ("Content-Length: ".data ++ toDecChars (utf8Len p) ++ ['\r']) := by
    intro hmem
    rcases List.mem_append.mp hmem with hmem | hmem
    · rcases List.mem_append.mp hmem with hmem | hmem
      · revert hmem; decide
      · exact absurd rfl (isDigC_ne_nl (hDdig _ hmem))
    · revert hmem; decide
  have htrim : trimEnd (([] : List Char) ++
      ("Content-Length: ".data ++ toDecChars (utf8Len p) ++ ['\r'])) =
      "Content-Length: ".data ++ toDecChars (utf8Len p) := by
    rw [List.nil_append,
        trimEnd_app_ws (by decide) ("Content-Length: ".data ++ toDecChars (utf8Len p))]
    exact trimEnd_app_digits hDne hDdig _
  have hne2 : "Content-Length: ".data ++ toDecChars (utf8Len p) ≠ [] := by
    rw [hA]; simp
  have htrimD : trim (' ' :: toDecChars (utf8Len p)) = toDecChars (utf8Len p) := by
    unfold trim
    rw [show (' ' :: toDecChars (utf8Len p)) = [' '] ++ toDecChars (utf8Len p)
          from rfl,
        trimEnd_app_digits hDne hDdig [' '], List.singleton_append,
        trimL_cons_ws (by decide)]
    cases hD2 : toDecChars (utf8Len p) with
    | nil => exact absurd hD2 hDne
    | cons c t =>
      exact trimL_cons_nonws (isDigC_not_ws (hDdig c (by rw [hD2]; simp))) t
  have hupd : updateCL none
      ("Content-Length: ".data ++ toDecChars (utf8Len p)) =
      some (utf8Len p) := by
    unfold updateCL
    rw [hsplitA, List.append_assoc, List.singleton_append,
        stripPre_app clPre (' ' :: toDecChars (utf8Len p))]
    show parseUsize (trim (' ' :: toDecChars (utf8Len p))) = some (utf8Len p)
    rw [htrimD]
    exact parse_toDec _ hp
  rw [hstream]
  unfold read_jsonrpc_message
  rw [headerLoop_line hnnl, htrim, if_neg hne2, hupd]
  rw [show ('\r' :: '\n' :: (p.data ++ rest)) =
        ['\r'] ++ '\n' :: (p.data ++ rest) from rfl]
  rw [headerLoop_line (by decide)]
  rw [show trimEnd (([] : List Char) ++ ['\r']) = [] from by decide]
  rw [if_pos rfl]
  show afterHeaders (some (utf8Len p)) (p.data ++ rest) = _
  rw [show utf8Len p = byteLen p.data from rfl]
  simp only [afterHeaders]
  rw [readExact_app p.data rest]

/-- C8: framing round-trip.  Reading the frame written for any payload yields
exactly that payload, and reading a concatenation of frames sequentially
yields the original payload sequence.  (The bound is the `usize` range of the
`Content-Length` value, satisfied by every real payload.) -/
theorem c8_framing_round_trip :
    (∀ p : String, utf8Len p < 2 ^ 64 →
      read_jsonrpc_message (write_jsonrpc_message p) = .ok p []) ∧
    (∀ ps : List String, (∀ p ∈ ps, utf8Len p < 2 ^ 64) →
      readSeq ps.length ((ps.map write_jsonrpc_message).flatten) = some ps) := by
  constructor
  · intro p hp
    have := read_write_app p [] hp
    simpa using this
  · intro ps
    induction ps with
    | nil => intro _; rfl
    | cons p ps ih =>
      intro hall
      have hp : utf8Len p < 2 ^ 64 := hall p (by simp)
      have hrest : ∀ q ∈ ps, utf8Len q < 2 ^ 64 :=
        fun q hq => hall q (by simp [hq])
      simp only [List.map_cons, List.flatten_cons, List.length_cons, readSeq]
      rw [read_write_app p _ hp]
      show ((readSeq ps.length
          (List.map write_jsonrpc_message ps).flatten).map
            (fun l => p :: l)) = some (p :: ps)
      rw [ih hrest]
      rfl

/-- Witness for `c8_framing_round_trip` at concrete payloads. -/
theorem c8_witness :
    read_jsonrpc_message (write_jsonrpc_message "abc") = .ok "abc" [] ∧
    readSeq 2 ((["a", "bc"].map write_jsonrpc_message).flatten) =
      some ["a", "bc"] :=
  ⟨c8_framing_round_trip.1 "abc" (by decide),
   c8_framing_round_trip.2 ["a", "bc"] (by decide)⟩

/-- C9 (code bug): the header loop consumes every non-empty line while looking
for headers, so a newline-delimited JSON stream is never returned to the
caller.  On `\x7b"a":1\x7d\n\n` (first line non-empty JSON, no Content-Length
header, then an empty line) the reader consumes the JSON line as a header and
returns EOF instead of the line; a plain two-line JSON stream with no blank
line also yields EOF. -/
theorem c9_first_json_line_swallowed :
    read_jsonrpc_message "\x7b\"a\":1\x7d\n\n".data = .eof ∧
    read_jsonrpc_message "\x7b\"a\":1\x7d\n\x7b\"b\":2\x7d\n".data = .eof := by
  exact ⟨by decide, by decide⟩

/-- C10: an unparseable `Content-Length:` value is silently discarded (the
stored length becomes `None`), no error is reported, and after the empty line
ending the header block the reader falls back to returning the next line,
trimmed — or EOF when the stream ends there. -/
theorem c10_invalid_content_length (v L tail : List Char)
    (hv : '\n' ∉ v) (hp : parseUsize (trim v) = none) (hL : '\n' ∉ L) :
    read_jsonrpc_message (clPre ++ v ++ '\n' :: '\n' :: (L ++ '\n' :: tail)) =
      .ok ⟨trim L⟩ tail ∧
    read_jsonrpc_message (clPre ++ v ++ ['\n', '\n']) = .eof := by
  have hclne : (clPre : List Char) ≠ [] := by decide
  have hnl1 : '\n' ∉ clPre ++ v := by
    intro h
    rcases List.mem_append.mp h with h | h
    · revert h; decide
    · exact hv h
  have hstrip : stripPre clPre clPre = some [] := by
    have h := stripPre_app clPre []
    simpa using h
  have hupd : updateCL none (trimEnd (clPre ++ v)) = none := by
    rw [trimEnd_app clPre v]
    by_cases hve : trimEnd v = []
    · rw [if_pos hve, show trimEnd clPre = clPre from by decide]
      unfold updateCL
      rw [hstrip]
      decide
    · rw [if_neg hve]
      unfold updateCL
      rw [stripPre_app clPre (trimEnd v)]
      show parseUsize (trim (trimEnd v)) = none
      rw [trim_trimEnd]
      exact hp
  have hne3 : trimEnd (clPre ++ v) ≠ [] := by
    rw [trimEnd_app clPre v]
    by_cases hve : trimEnd v = []
    · rw [if_pos hve, show trimEnd clPre = clPre from by decide]
      exact hclne
    · rw [if_neg hve]
      intro h
      exact hclne (List.append_eq_nil.mp h).1
  constructor
  · rw [show clPre ++ v ++ '\n' :: '\n' :: (L ++ '\n' :: tail) =
          (clPre ++ v) ++ '\n' :: ('\n' :: (L ++ '\n' :: tail)) from by simp]
    unfold read_jsonrpc_message
    rw [headerLoop_line hnl1, List.nil_append, if_neg hne3, hupd]
    rw [show ('\n' :: (L ++ '\n' :: tail)) =
          ([] : List Char) ++ '\n' :: (L ++ '\n' :: tail) from rfl]
    rw [headerLoop_line (by simp)]
    rw [show trimEnd (([] : List Char) ++ []) = [] from rfl, if_pos rfl]
    exact afterHeaders_none_app hL tail
  · rw [show clPre ++ v ++ ['\n', '\n'] =
          (clPre ++ v) ++ '\n' :: ['\n'] from by simp]
    unfold read_jsonrpc_message
    rw [headerLoop_line hnl1, List.nil_append, if_neg hne3, hupd]
    rw [show (['\n'] : List Char) = ([] : List Char) ++ '\n' :: [] from rfl]
    rw [headerLoop_line (by simp)]
    rw [show trimEnd (([] : List Char) ++ []) = [] from rfl, if_pos rfl]
    decide

/-- Witness for `c10_invalid_content_length`: the header value `" 12x"` fails
to parse; the reader returns the trimmed next line (or EOF). -/
theorem c10_witness :
    ('\n' ∉ (" 12x".data : List Char) ∧
     parseUsize (trim " 12x".data) = none ∧
     '\n' ∉ ("payload".data : List Char)) ∧
    (read_jsonrpc_message (clPre ++ " 12x".data ++ '\n' :: '\n' ::
        ("payload".data ++ '\n' :: [])) = .ok ⟨trim "payload".data⟩ [] ∧
     read_jsonrpc_message (clPre ++ " 12x".data ++ ['\n', '\n']) = .eof) :=
  ⟨⟨by decide, by decide, by decide⟩,
   c10_invalid_content_length " 12x".data "payload".data []
     (by decide) (by decide) (by decide)⟩

end Ramparts
